import Mathlib

/-!
# CyberShield client script: dispatch, response interpretation, notification feed

A shallow embedding of `src/script.js`.  Strings are Lean strings, the DOM parts the
script reads or writes are fields of explicit state records, asynchronous functions are
split at their first suspension point, and timers are entries of an explicit queue with
an integer millisecond clock.

Not modelled: the `console.error` developer channel, the timestamp span that
`addLogEntry` renders from the wall clock, the bytes of files and blobs, and the HTML
parser beyond plain text and three named references (`htmlText`).  A Lean string is a
sequence of Unicode scalar values, so a JavaScript string with a lone surrogate has no
counterpart.
-/

namespace CyberShield

/-! ## JavaScript strings -/

/-- JavaScript `String.prototype.replace` with a string pattern, on character lists:
only the first occurrence of `pat` is replaced, and an absent pattern leaves the text as
it is.  The replacement texts used by the script (`''` and `' '`) hold no `$` pattern. -/
def replaceFirst (pat rep : List Char) : List Char → List Char
  | [] => if pat.isPrefixOf [] then rep else []
  | c :: cs =>
    if pat.isPrefixOf (c :: cs) then rep ++ List.drop pat.length (c :: cs)
    else c :: replaceFirst pat rep cs

/-- The call `s.replace(pat, rep)` on strings. -/
def jsReplace (s pat rep : String) : String :=
  ⟨replaceFirst pat.data rep.data s.data⟩

/-- Save name of the `encrypt` case of `handleTool` (script.js line 106):
the template literal that appends `.encrypted` to the file name. -/
def encryptName (name : String) : String := name ++ ".encrypted"

/-- Save name of the `decrypt` case of `handleTool` (script.js line 114):
`currentFile.name.replace('.encrypted', '')`. -/
def decryptName (name : String) : String := jsReplace name ".encrypted" ""

/-! ## Notification feed (script.js lines 436-456) -/

/-- One `div.notification` element created by `showNotification`: its text, its type
class, whether its class list holds `show`, and whether it still has a parent node. -/
structure NotificationEl where
  message : String
  type : String
  shown : Bool
  attached : Bool
deriving DecidableEq, Repr

/-- The three callbacks that `showNotification` hands to `setTimeout`, each closed over
the element it was created for (the element is named by its creation index). -/
inductive TimerAction where
  | addShow (id : Nat)
  | hide (id : Nat)
  | detach (id : Nat)
deriving DecidableEq, Repr

/-- The element a callback is closed over. -/
def TimerAction.target : TimerAction → Nat
  | .addShow id => id
  | .hide id => id
  | .detach id => id

/-- A pending timer: the clock value at which it is due and its callback. -/
structure Timer where
  due : Nat
  action : TimerAction
deriving DecidableEq, Repr

/-- The notification container with the host clock (milliseconds) and timer queue.
`elems` lists every element ever created, in creation order; the children of the
container are the elements with `attached = true`. -/
structure Feed where
  now : Nat
  elems : List NotificationEl
  timers : List Timer
deriving DecidableEq, Repr

/-- Apply `f` to the element at index `i`, leaving the list alone when there is none. -/
def updateAt {α : Type} (f : α → α) : Nat → List α → List α
  | _, [] => []
  | 0, x :: xs => f x :: xs
  | n + 1, x :: xs => x :: updateAt f n xs

/-- The call `setTimeout(callback, delay)`: registers the callback `delay` milliseconds
after the current clock value. -/
def setTimeout (action : TimerAction) (delay : Nat) (feed : Feed) : Feed :=
  { feed with timers := feed.timers ++ [⟨feed.now + delay, action⟩] }

/-- The function `showNotification(message, type)`: appends a new element without the
`show` class and registers two timers, both counted from the moment of creation: add
`show` after 100 ms, and start hiding after 5000 ms. -/
def showNotification (message type : String) (feed : Feed) : Feed :=
  let id := feed.elems.length
  let feed := { feed with elems := feed.elems ++ [⟨message, type, false, true⟩] }
  let feed := setTimeout (.addShow id) 100 feed
  setTimeout (.hide id) 5000 feed

/-- Body of each timer callback of `showNotification`.  The 5000 ms callback removes
`show` and registers the removal 300 ms later; the removal detaches the element when it
still has a parent. -/
def runCallback (action : TimerAction) (feed : Feed) : Feed :=
  match action with
  | .addShow id =>
    { feed with elems := updateAt (fun el => { el with shown := true }) id feed.elems }
  | .hide id =>
    let feed :=
      { feed with elems := updateAt (fun el => { el with shown := false }) id feed.elems }
    setTimeout (.detach id) 300 feed
  | .detach id =>
    { feed with
      elems := updateAt
        (fun el => if el.attached then { el with attached := false } else el) id feed.elems }

/-- Next timer of the queue: the one with the least due time, the earliest registered
among equals, together with the queue without it. -/
def pickNext : List Timer → Option (Timer × List Timer)
  | [] => none
  | t :: ts =>
    match pickNext ts with
    | none => some (t, [])
    | some (u, rest) => if t.due ≤ u.due then some (t, ts) else some (u, t :: rest)

/-- Fire one timer exactly on schedule: the clock moves to its due time and the callback
runs. -/
def fire (tm : Timer) (rest : List Timer) (feed : Feed) : Feed :=
  runCallback tm.action { feed with now := max feed.now tm.due, timers := rest }

/-- Number of firings a timer can still cause: the hide callback registers one more. -/
def Timer.weight (tm : Timer) : Nat :=
  match tm.action with
  | .hide _ => 2
  | _ => 1

/-- Total number of firings the queue can still cause. -/
def weight (timers : List Timer) : Nat := (timers.map Timer.weight).sum

/-- Let the clock run up to `t`, firing in due order every timer due at or before `t`;
`fuel` bounds the number of firings. -/
def advanceFuel : Nat → Nat → Feed → Feed
  | 0, t, feed => { feed with now := max feed.now t }
  | fuel + 1, t, feed =>
    match pickNext feed.timers with
    | none => { feed with now := max feed.now t }
    | some (tm, rest) =>
      if tm.due ≤ t then advanceFuel fuel t (fire tm rest feed)
      else { feed with now := max feed.now t }

/-- Let the clock run up to `t` with enough fuel for every firing the queue can cause. -/
def advance (t : Nat) (feed : Feed) : Feed := advanceFuel (weight feed.timers) t feed

/-- The feed before any notification, clock at 0. -/
def Feed.empty : Feed := ⟨0, [], []⟩

/-- Membership in the visible set: the element is in the container and carries `show`. -/
def visible (feed : Feed) (id : Nat) : Bool :=
  match feed.elems[id]? with
  | some el => el.attached && el.shown
  | none => false

/-- Whether the element is still a child of the container. -/
def attached (feed : Feed) (id : Nat) : Bool :=
  match feed.elems[id]? with
  | some el => el.attached
  | none => false

/-- The timers closed over element `id`. -/
def pendingFor (id : Nat) (timers : List Timer) : List Timer :=
  timers.filter (fun tm => tm.action.target == id)

/-- No pending timer is overdue. -/
def Timely (feed : Feed) : Prop := ∀ tm ∈ feed.timers, feed.now ≤ tm.due

/-- Every pending timer is closed over an element that exists. -/
def Targeted (feed : Feed) : Prop := ∀ tm ∈ feed.timers, tm.action.target < feed.elems.length

/-- No pending timer is due yet: the state between two events, when every timer that
was due has fired. -/
def StrictTimely (feed : Feed) : Prop := ∀ tm ∈ feed.timers, feed.now < tm.due

/-- Lifecycle position of the element `id` created at clock value `t0`: which of its
timers are pending, its classes, and how far the clock has come. -/
def Phase (id t0 : Nat) (feed : Feed) : Prop :=
  ∃ el, feed.elems[id]? = some el ∧
    ((pendingFor id feed.timers = [⟨t0 + 100, .addShow id⟩, ⟨t0 + 5000, .hide id⟩] ∧
        el.shown = false ∧ el.attached = true) ∨
     (pendingFor id feed.timers = [⟨t0 + 5000, .hide id⟩] ∧
        el.shown = true ∧ el.attached = true ∧ t0 + 100 ≤ feed.now) ∨
     (pendingFor id feed.timers = [⟨t0 + 5300, .detach id⟩] ∧
        el.shown = false ∧ el.attached = true ∧ t0 + 5000 ≤ feed.now) ∨
     (pendingFor id feed.timers = [] ∧
        el.shown = false ∧ el.attached = false ∧ t0 + 5300 ≤ feed.now))

/-- The feeds that can arise: from the empty feed by calls of `showNotification` and by
the clock running on. -/
inductive Reachable : Feed → Prop where
  | empty : Reachable Feed.empty
  | shown (message type : String) (feed : Feed) :
      Reachable feed → Reachable (showNotification message type feed)
  | advanced (t : Nat) (feed : Feed) : Reachable feed → Reachable (advance t feed)

/-- The feed `later` arises from `feed` by any number of further events: more calls of
`showNotification`, and the clock running on. -/
inductive Later (feed : Feed) : Feed → Prop where
  | refl : Later feed feed
  | shown (message type : String) (later : Feed) :
      Later feed later → Later feed (showNotification message type later)
  | advanced (t : Nat) (later : Feed) : Later feed later → Later feed (advance t later)

/-! ## Values of a parsed JSON body -/

/-- A JavaScript value as `response.json()` can produce it, plus `undefined` for an
absent property.  Numbers are the integer counts that the remote service reports.  The
field list of an object is in property enumeration order. -/
inductive JSVal where
  | undefined
  | null
  | bool (b : Bool)
  | num (n : Int)
  | str (s : String)
  | arr (items : List JSVal)
  | obj (fields : List (String × JSVal))

/-- Truthiness, as tested by `if (v)` and by `v || w`. -/
def JSVal.truthy : JSVal → Bool
  | .undefined => false
  | .null => false
  | .bool b => b
  | .num n => n != 0
  | .str s => s != ""
  | .arr _ => true
  | .obj _ => true

/-- The test `v === undefined`. -/
def JSVal.isUndefined : JSVal → Bool
  | .undefined => true
  | _ => false

/-- The values on which a property read throws a `TypeError`. -/
def JSVal.isNullish : JSVal → Bool
  | .undefined => true
  | .null => true
  | _ => false

/-- The property read `v.key` for the keys the script reads (`success`, `hash`, `error`
and so on): the field of an object, `undefined` on every other value. -/
def JSVal.prop (v : JSVal) (key : String) : JSVal :=
  match v with
  | .obj fields => (fields.lookup key).getD .undefined
  | _ => .undefined

/-- Pair every item with its index written in decimal, counting from `start`. -/
def indexed {α : Type} (start : Nat) : List α → List (String × α)
  | [] => []
  | x :: xs => (toString start, x) :: indexed (start + 1) xs

/-- The UTF-16 code units of a character as one-unit strings: one for a character of
the basic plane, two surrogate halves for any other.  A Lean string cannot hold a lone
surrogate, so each half is stood for by U+FFFD; the script reads nothing of it but the
absent property `hash`. -/
def codeUnits (c : Char) : List JSVal :=
  if c.toNat < 65536 then [.str (String.singleton c)]
  else [.str (String.singleton (Char.ofNat 65533)), .str (String.singleton (Char.ofNat 65533))]

/-- The call `Object.entries(v)` on a truthy value: the fields of an object, the items
of an array under their indices, the UTF-16 code units of a string under their indices,
nothing for a number or a boolean. -/
def JSVal.entries : JSVal → List (String × JSVal)
  | .obj fields => fields
  | .arr items => indexed 0 items
  | .str s => indexed 0 (s.data.flatMap codeUnits)
  | _ => []

/-- What the script takes from the JavaScript host and its locale: the text of a value
that is not a string when it is spliced into a template literal or an `Error` message,
the text of `new Date(v).toLocaleString()`, and the message of the `TypeError` thrown by
a property read (argument: the property) on `null` or `undefined`. -/
structure Host where
  render : JSVal → String
  dateString : JSVal → String
  typeError : String → String

/-- String conversion of a value: a string is spliced in as it is. -/
def Host.toStr (host : Host) : JSVal → String
  | .str s => s
  | v => host.render v

/-! ## Dispatcher state -/

/-- The selected `File` object, as far as the script reads it. -/
structure File where
  name : String
  size : Nat
  type : String
deriving DecidableEq, Repr

/-- One `fetch` call: the path, the method, and the file carried in the `file` field of
the form data (none for the calls without a body). -/
structure Request where
  url : String
  method : String
  body : Option File
deriving DecidableEq, Repr

/-- A settled `fetch` response: the `ok` flag of the status, the outcome of
`response.json()` (parse error message or parsed value), and the outcome of
`response.blob()`. -/
structure Response where
  ok : Bool
  json : Except String JSVal
  blob : Except String Unit

/-- The `.tool-btn` element of a tool card: its `loading` class and `disabled` flag. -/
structure Button where
  loading : Bool
  disabled : Bool
deriving DecidableEq, Repr

/-- One `div.log-entry` of the output console: its type class and the `message` that
`addLogEntry` splices into the markup it assigns to `innerHTML`.  The message is markup
source: what the entry shows is the text the HTML parser makes of it, see
`LogEntry.text`. -/
structure LogEntry where
  type : String
  message : String
deriving DecidableEq, Repr

/-- The character a named reference stands for, for the three names covered. -/
def decodeReference (name : List Char) : Option Char :=
  if name = ['a', 'm', 'p'] then some '&'
  else if name = ['l', 't'] then some '<'
  else if name = ['g', 't'] then some '>'
  else none

/-- Text content of the markup `message` inside a log entry, as far as this model covers
the HTML parser: every character other than `&`, `<`, carriage return and NUL is text,
and the references `&amp;`, `&lt;`, `&gt;` give their character.  The result is `none`
for all other markup (tags, other references).  The first argument holds the name of a
reference being read. -/
def htmlTextAux : Option (List Char) → List Char → Option (List Char)
  | none, [] => some []
  | some _, [] => none
  | none, c :: rest =>
    if c = '&' then htmlTextAux (some []) rest
    else if c = '<' ∨ c = '\r' ∨ c = Char.ofNat 0 then none
    else (htmlTextAux none rest).map (fun text => c :: text)
  | some name, c :: rest =>
    if c = ';' then
      match decodeReference name with
      | some d => (htmlTextAux none rest).map (fun text => d :: text)
      | none => none
    else htmlTextAux (some (name ++ [c])) rest

/-- Text content of the markup `message`, where the model covers it. -/
def htmlText (message : String) : Option String :=
  (htmlTextAux none message.data).map String.mk

/-- The text a log entry shows after its timestamp (between the fixed white space of the
template), where the model covers it. -/
def LogEntry.text (entry : LogEntry) : Option String := htmlText entry.message

/-- A string without markup: no `&`, no `<`, no carriage return, no NUL. -/
def isPlain (s : String) : Bool :=
  s.data.all (fun c => !(c = '&' ∨ c = '<' ∨ c = '\r' ∨ c = Char.ofNat 0))

/-- Everything `handleTool` reads and writes: the global `currentFile`, the tool buttons
of the page keyed by `data-tool`, the notification feed, the output console (its
welcome banner and its entries), and two traces: the `fetch` calls issued and the names
of the files handed to the browser for saving. -/
structure State where
  currentFile : Option File
  buttons : List (String × Button)
  feed : Feed
  welcome : Bool
  log : List LogEntry
  requests : List Request
  downloads : List String
deriving DecidableEq, Repr

/-- The call `showNotification(message, type)` seen from the dispatcher state. -/
def notify (message type : String) (st : State) : State :=
  { st with feed := showNotification message type st.feed }

/-- The function `addLogEntry(type, message)` (script.js lines 354-373): removes the
welcome banner if present and appends the entry, whose `innerHTML` is built from the
message. -/
def addLogEntry (type message : String) (st : State) : State :=
  { st with welcome := false, log := st.log ++ [⟨type, message⟩] }

/-- The function `handleFileDownload(response, filename)` (script.js lines 163-181).
The first component is the message of the error thrown, if any. -/
def handleFileDownload (host : Host) (response : Response) (filename : String)
    (st : State) : Option String × State :=
  if response.ok then
    match response.blob with
    | .error m => (some m, st)
    | .ok _ =>
      let st := { st with downloads := st.downloads ++ [filename] }
      let st := notify "File downloaded successfully" "success" st
      let st := addLogEntry "success" ("File processed and downloaded: " ++ filename) st
      (none, st)
  else
    match response.json with
    | .error m => (some m, st)
    | .ok error =>
      if error.isNullish then (some (host.typeError "error"), st)
      else
        let e := error.prop "error"
        (some (host.toStr (if e.truthy then e else .str "Unknown error")), st)

/-- The `forEach` over `Object.entries(data.hashes)` in `handleJsonResponse`: one info
entry per pair; reading `info.hash` throws when `info` is `null`. -/
def logHashes (host : Host) : List (String × JSVal) → State → Option String × State
  | [], st => (none, st)
  | (filename, info) :: rest, st =>
    if info.isNullish then (some (host.typeError "hash"), st)
    else
      logHashes host rest
        (addLogEntry "info" ("  " ++ filename ++ ": " ++ host.toStr (info.prop "hash")) st)

/-- The function `handleJsonResponse(response)` (script.js lines 183-217).  The first
component is the message of the error thrown, if any. -/
def handleJsonResponse (host : Host) (response : Response) (st : State) :
    Option String × State :=
  match response.json with
  | .error m => (some m, st)
  | .ok data =>
    if data.isNullish then (some (host.typeError "success"), st)
    else if (data.prop "success").truthy then
      let st := notify "Operation completed successfully" "success" st
      if (data.prop "hash").truthy then
        let st := addLogEntry "success" ("SHA-256 Hash: " ++ host.toStr (data.prop "hash")) st
        let st := addLogEntry "info" ("File: " ++ host.toStr (data.prop "filename")) st
        let st := addLogEntry "info" ("Timestamp: " ++ host.dateString (data.prop "timestamp")) st
        (none, st)
      else if !(data.prop "integrity_verified").isUndefined then
        let verified := (data.prop "integrity_verified").truthy
        let status := if verified then "✅ VERIFIED" else "❌ MODIFIED"
        let st := addLogEntry (if verified then "success" else "error")
          ("File Integrity: " ++ status) st
        let st := addLogEntry "info" ("Current Hash: " ++ host.toStr (data.prop "current_hash")) st
        let st := addLogEntry "info" ("Stored Hash: " ++ host.toStr (data.prop "stored_hash")) st
        (none, st)
      else if (data.prop "message").truthy then
        (none, addLogEntry "success" (host.toStr (data.prop "message")) st)
      else if (data.prop "hashes").truthy then
        let st := addLogEntry "info"
          ("Stored Hashes (" ++ host.toStr (data.prop "count") ++ " files):") st
        logHashes host (data.prop "hashes").entries st
      else if !(data.prop "stored_hashes").isUndefined then
        let st := addLogEntry "info" "=== System Information ===" st
        let st := addLogEntry "info" ("Stored Hashes: " ++ host.toStr (data.prop "stored_hashes")) st
        let st := addLogEntry "info" ("Backup Files: " ++ host.toStr (data.prop "backup_files")) st
        let st := addLogEntry "info"
          ("Encryption Key: " ++ host.toStr (data.prop "encryption_key")) st
        let st := addLogEntry "info" ("Cipher Suite: " ++ host.toStr (data.prop "cipher_suite")) st
        (none, st)
      else (none, st)
    else
      let e := data.prop "error"
      (some (host.toStr (if e.truthy then e else .str "Operation failed")), st)

/-- Write the state of the first button registered for `tool`, the element that
`document.querySelector` returns. -/
def setButton (tool : String) (b : Button) : List (String × Button) → List (String × Button)
  | [] => []
  | (k, old) :: rest =>
    if tool == k then (k, b) :: rest else (k, old) :: setButton tool b rest

/-- The `fetch` call of each case of the `switch` in `handleTool` (script.js lines
100-150); the form data holds the file selected when the call is made. -/
def requestFor (tool : String) (file : File) : Option Request :=
  match tool with
  | "encrypt" => some ⟨"/encrypt", "POST", some file⟩
  | "decrypt" => some ⟨"/decrypt", "POST", some file⟩
  | "compute_hash" => some ⟨"/compute_hash", "POST", some file⟩
  | "verify_integrity" => some ⟨"/verify_integrity", "POST", some file⟩
  | "backup" => some ⟨"/backup", "POST", some file⟩
  | "view_hashes" => some ⟨"/view_hashes", "GET", none⟩
  | "system_info" => some ⟨"/system_info", "GET", none⟩
  | _ => none

/-- How far `handleTool` gets before it first suspends: it returned at the selection
guard, it threw before the `try` because the page has no button for the tool, it is
suspended at `await fetch(...)` with the request issued, or no case matched and the
`finally` block has run. -/
inductive Begun where
  | rejected (st : State)
  | threw (message : String) (st : State)
  | awaiting (request : Request) (st : State)
  | finished (st : State)
deriving DecidableEq

/-- The function `handleTool(tool)` up to its first suspension (script.js lines 81-150). -/
def handleToolBegin (host : Host) (tool : String) (st : State) : Begun :=
  match st.currentFile with
  | none => .rejected (notify "Please select a file first" "error" st)
  | some file =>
    match st.buttons.lookup tool with
    | none => .threw (host.typeError "querySelector") st
    | some _ =>
      let st := { st with buttons := setButton tool ⟨true, true⟩ st.buttons }
      match requestFor tool file with
      | some request => .awaiting request { st with requests := st.requests ++ [request] }
      | none => .finished { st with buttons := setButton tool ⟨false, false⟩ st.buttons }

/-- The statement after `await fetch(...)` in each case of the `switch`: the response
goes to `handleFileDownload` with the derived save name, read from `currentFile` at
that moment, or to `handleJsonResponse`. -/
def afterFetch (host : Host) (tool : String) (response : Response) (st : State) :
    Option String × State :=
  match tool with
  | "encrypt" =>
    match st.currentFile with
    | none => (some (host.typeError "name"), st)
    | some file => handleFileDownload host response (encryptName file.name) st
  | "decrypt" =>
    match st.currentFile with
    | none => (some (host.typeError "name"), st)
    | some file => handleFileDownload host response (decryptName file.name) st
  | "compute_hash" => handleJsonResponse host response st
  | "verify_integrity" => handleJsonResponse host response st
  | "backup" => handleJsonResponse host response st
  | "view_hashes" => handleJsonResponse host response st
  | "system_info" => handleJsonResponse host response st
  | _ => (none, st)

/-- The `catch` and `finally` blocks of `handleTool` (script.js lines 152-160), applied
to what the `try` block did: an error thrown there becomes one error notification and
one error log entry, and in every case the button is restored. -/
def settle (tool : String) (tried : Option String × State) : State :=
  let st :=
    match tried with
    | (none, st) => st
    | (some m, st) =>
      let st := notify ("Operation failed: " ++ m) "error" st
      addLogEntry "error" (jsReplace tool "_" " " ++ " failed: " ++ m) st
  { st with buttons := setButton tool ⟨false, false⟩ st.buttons }

/-- The function `handleTool(tool)` from the moment its `fetch` settles (script.js lines
100-160): `outcome` is the rejection message or the response; a rejection is an error
thrown in the `try` block, a response goes on to the handler of the tool. -/
def handleToolResume (host : Host) (tool : String) (outcome : Except String Response)
    (st : State) : State :=
  settle tool
    (match outcome with
     | .error m => (some m, st)
     | .ok response => afterFetch host tool response st)

/-- One uninterrupted run of `handleTool(tool)`: `net` answers the `fetch` call.  The
first component is the message of the error that reaches the caller, if any. -/
def handleTool (host : Host) (net : Request → Except String Response) (tool : String)
    (st : State) : Option String × State :=
  match handleToolBegin host tool st with
  | .rejected st => (none, st)
  | .threw m st => (some m, st)
  | .awaiting request st => (none, handleToolResume host tool (net request) st)
  | .finished st => (none, st)

/-- The tools that have a case in the `switch` of `handleTool`. -/
def knownTools : List String :=
  ["encrypt", "decrypt", "compute_hash", "verify_integrity", "backup", "view_hashes",
    "system_info"]

/-- The two tools whose response goes to `handleFileDownload`. -/
def downloadTools : List String := ["encrypt", "decrypt"]

/-- The remote call for `tool` failed with message `m`: the `fetch` was rejected with
`m`, or the response body is an object whose `error` field is the non-empty text `m` and
the response counts as failed for the handler of the tool, which tests the status for
the download tools and the `success` field of the body for the others. -/
def FailsWith (tool : String) (outcome : Except String Response) (m : String) : Prop :=
  outcome = .error m ∨
  (m ≠ "" ∧ ∃ response fields, outcome = .ok response ∧ response.json = .ok (.obj fields) ∧
    (JSVal.obj fields).prop "error" = .str m ∧
    ((tool ∈ downloadTools ∧ response.ok = false) ∨
     (tool ∉ downloadTools ∧ ((JSVal.obj fields).prop "success").truthy = false)))

/-! ## Sample inputs -/

/-- A host that writes numbers in decimal, with fixed texts for the rest. -/
def sampleHost : Host :=
  ⟨fun v => match v with
     | .num n => toString n
     | _ => "?",
   fun _ => "date", fun k => "cannot read " ++ k⟩

/-- A page with one idle button per known tool. -/
def sampleButtons : List (String × Button) := knownTools.map (fun t => (t, ⟨false, false⟩))

/-- The page right after loading: nothing selected, empty feed, welcome banner shown. -/
def noFile : State := ⟨none, sampleButtons, Feed.empty, true, [], [], []⟩

/-- The page after a file was selected. -/
def withFile : State := { noFile with currentFile := some ⟨"notes.txt", 10, "text/plain"⟩ }

/-- A network on which every call is rejected with the message `timeout`. -/
def netDown : Request → Except String Response := fun _ => .error "timeout"

/-- A network that answers every call with the given status flag and parsed body. -/
def netReply (ok : Bool) (body : JSVal) : Request → Except String Response :=
  fun _ => .ok ⟨ok, .ok body, .ok ()⟩

/-- A run of the feed: a first notification at 0 ms, a second one at 50 ms, read at
4999 ms. -/
def sampleRun : Feed :=
  advance 4999 (showNotification "Log saved successfully" "success"
    (advance 50 (showNotification "File selected" "success" Feed.empty)))

/-- The request that the `encrypt` case issues for the sample file. -/
def encryptRequest : Request := ⟨"/encrypt", "POST", some ⟨"notes.txt", 10, "text/plain"⟩⟩

/-- The sample page while one `encrypt` invocation is suspended at its `fetch`. -/
def pendingEncrypt : State :=
  { withFile with
    buttons := setButton "encrypt" ⟨true, true⟩ withFile.buttons,
    requests := [encryptRequest] }

/-- The body of a failure response with the error text `bad key`. -/
def badKey : JSVal := .obj [("success", .bool false), ("error", .str "bad key")]

/-- The body of a failure response whose error text holds a character reference. -/
def diskFull : JSVal := .obj [("success", .bool false), ("error", .str "disk full &amp; locked")]

/-- The body of a successful `system_info` response. -/
def systemReport : JSVal := .obj
  [("success", .bool true), ("stored_hashes", .num 2), ("backup_files", .num 1),
   ("encryption_key", .str "key-1"), ("cipher_suite", .str "Fernet")]

/-- The sample page with a file, its system_info request pending, after
`handleJsonResponse` has handled the system report. -/
def reportedState : State :=
  { withFile with
    buttons := setButton "system_info" ⟨true, true⟩ withFile.buttons,
    requests := [⟨"/system_info", "GET", none⟩],
    feed := showNotification "Operation completed successfully" "success" Feed.empty,
    welcome := false,
    log := [⟨"info", "=== System Information ==="⟩, ⟨"info", "Stored Hashes: 2"⟩,
            ⟨"info", "Backup Files: 1"⟩, ⟨"info", "Encryption Key: key-1"⟩,
            ⟨"info", "Cipher Suite: Fernet"⟩] }

/-- A successful hash report that also carries a message: the response and its body. -/
def hashAndMessage : Response × JSVal :=
  let body : JSVal := .obj
    [("success", .bool true), ("hash", .str "ab12"), ("filename", .str "notes.txt"),
     ("timestamp", .str "2024-01-01T00:00:00"), ("message", .str "stored")]
  (⟨true, .ok body, .ok ()⟩, body)

/-! ## Lemmas on string replacement -/

theorem isPrefix_append_cases {α : Type} (r p t : List α) (h : r <+: p ++ t) :
    r <+: p ∨ ∃ u, r = p ++ u ∧ u <+: t := by
  induction p generalizing r with
  | nil => exact Or.inr ⟨r, by simp, by simpa using h⟩
  | cons a p ih =>
    cases r with
    | nil => exact Or.inl (List.nil_prefix)
    | cons b r =>
      simp only [List.cons_append, List.cons_prefix_cons] at h
      rcases ih r h.2 with h1 | ⟨u, hu, hut⟩
      · exact Or.inl (by simp [List.cons_prefix_cons, h.1, h1])
      · exact Or.inr ⟨u, by simp [h.1, hu], hut⟩

theorem replaceFirst_absent (pat rep l : List Char) (hpat : pat ≠ [])
    (h : ¬ pat <:+: l) : replaceFirst pat rep l = l := by
  induction l with
  | nil =>
    cases pat with
    | nil => exact absurd rfl hpat
    | cons d rest => simp [replaceFirst, List.isPrefixOf]
  | cons c cs ih =>
    have h1 : ¬ pat <+: c :: cs := fun hp => h hp.isInfix
    have h2 : ¬ pat <:+: cs := fun hi => h (hi.trans (List.suffix_cons c cs).isInfix)
    have h3 : pat.isPrefixOf (c :: cs) = false := by
      rw [Bool.eq_false_iff]
      intro hp
      exact h1 (List.isPrefixOf_iff_prefix.mp hp)
    rw [replaceFirst, h3]
    simp [ih h2]

theorem replaceFirst_first_occurrence (d : Char) (rest rep p s : List Char)
    (hd : d ∉ rest) (h : ¬ (d :: rest) <:+: p) :
    replaceFirst (d :: rest) rep (p ++ (d :: rest) ++ s) = p ++ rep ++ s := by
  induction p with
  | nil =>
    have h3 : (d :: rest).isPrefixOf (d :: rest ++ s) = true :=
      List.isPrefixOf_iff_prefix.mpr (List.prefix_append _ _)
    simp only [List.nil_append, List.cons_append] at h3 ⊢
    rw [replaceFirst, h3]
    simp
  | cons a p ih =>
    have h2 : ¬ (d :: rest) <:+: p := fun hi => h (hi.trans (List.suffix_cons a p).isInfix)
    have h3 : (d :: rest).isPrefixOf (a :: (p ++ (d :: rest) ++ s)) = false := by
      rw [Bool.eq_false_iff]
      intro hp
      have hp := List.isPrefixOf_iff_prefix.mp hp
      rw [List.cons_prefix_cons, List.append_assoc] at hp
      obtain ⟨hda, hr⟩ := hp
      rcases isPrefix_append_cases rest p _ hr with h1 | ⟨u, hu, hut⟩
      · exact h (List.IsPrefix.isInfix (by rw [List.cons_prefix_cons]; exact ⟨hda, h1⟩))
      · cases u with
        | nil =>
          apply h
          apply List.IsPrefix.isInfix
          rw [List.cons_prefix_cons]
          exact ⟨hda, by simp [hu]⟩
        | cons x u =>
          simp only [List.cons_append, List.cons_prefix_cons] at hut
          apply hd
          rw [hu, ← hut.1]
          simp
    simp only [List.cons_append]
    rw [replaceFirst, h3]
    have h4 := ih h2
    simp only [List.cons_append, List.append_assoc] at h4 ⊢
    simp [h4]
theorem suffix_data : ".encrypted".data = '.' :: "encrypted".data := by decide

theorem dot_not_in_rest : '.' ∉ "encrypted".data := by decide

theorem decryptName_absent (name : String) (h : ¬ ".encrypted".data <:+: name.data) :
    decryptName name = name := by
  unfold decryptName jsReplace
  rw [replaceFirst_absent _ _ _ (by decide) h]

theorem decryptName_at (p s : String) (h : ¬ ".encrypted".data <:+: p.data) :
    decryptName (p ++ ".encrypted" ++ s) = p ++ s := by
  unfold decryptName jsReplace
  have key := replaceFirst_first_occurrence '.' "encrypted".data "".data p.data s.data
    dot_not_in_rest (by rw [← suffix_data]; exact h)
  apply String.ext
  simpa using key


/-! ## Lemmas on the timer queue -/

theorem getElem?_updateAt_same {α : Type} (f : α → α) (i : Nat) (l : List α) (x : α)
    (h : l[i]? = some x) : (updateAt f i l)[i]? = some (f x) := by
  induction l generalizing i with
  | nil => simp at h
  | cons y ys ih =>
    cases i with
    | zero =>
      simp at h
      simp [updateAt, h]
    | succ n =>
      simp at h
      simp [updateAt, ih n h]

theorem getElem?_updateAt_ne {α : Type} (f : α → α) (i j : Nat) (l : List α)
    (h : i ≠ j) : (updateAt f i l)[j]? = l[j]? := by
  induction l generalizing i j with
  | nil => simp [updateAt]
  | cons y ys ih =>
    cases i with
    | zero =>
      cases j with
      | zero => exact absurd rfl h
      | succ m => simp [updateAt]
    | succ n =>
      cases j with
      | zero => simp [updateAt]
      | succ m =>
        simp only [updateAt, List.getElem?_cons_succ]
        exact ih n m (fun e => h (by rw [e]))

theorem pickNext_spec (l : List Timer) (tm : Timer) (rest : List Timer)
    (h : pickNext l = some (tm, rest)) :
    ∃ l1 l2, l = l1 ++ tm :: l2 ∧ rest = l1 ++ l2 ∧ ∀ u ∈ l, tm.due ≤ u.due := by
  induction l generalizing tm rest with
  | nil => simp [pickNext] at h
  | cons t ts ih =>
    rw [pickNext] at h
    cases hp : pickNext ts with
    | none =>
      rw [hp] at h
      simp only [Option.some.injEq, Prod.mk.injEq] at h
      obtain ⟨h1, h2⟩ := h
      subst h1; subst h2
      cases ts with
      | nil => exact ⟨[], [], rfl, rfl, by simp⟩
      | cons a as =>
        rw [pickNext] at hp
        cases hq : pickNext as with
        | none => rw [hq] at hp; simp at hp
        | some q =>
          rw [hq] at hp
          simp only at hp
          split at hp <;> simp at hp
    | some q =>
      obtain ⟨u, r⟩ := q
      rw [hp] at h
      simp only at h
      obtain ⟨l1, l2, e1, e2, hmin⟩ := ih u r hp
      by_cases hle : t.due ≤ u.due
      · rw [if_pos hle] at h
        simp only [Option.some.injEq, Prod.mk.injEq] at h
        obtain ⟨h1, h2⟩ := h
        subst h1; subst h2
        refine ⟨[], ts, rfl, rfl, ?_⟩
        intro v hv
        rcases List.mem_cons.mp hv with hv | hv
        · rw [hv]
        · exact le_trans hle (hmin v hv)
      · rw [if_neg hle] at h
        simp only [Option.some.injEq, Prod.mk.injEq] at h
        obtain ⟨h1, h2⟩ := h
        subst h1; subst h2
        refine ⟨t :: l1, l2, by rw [e1]; rfl, by rw [e2]; rfl, ?_⟩
        intro v hv
        rcases List.mem_cons.mp hv with hv | hv
        · rw [hv]; omega
        · exact hmin v hv

theorem pickNext_eq_none (l : List Timer) (h : pickNext l = none) : l = [] := by
  cases l with
  | nil => rfl
  | cons t ts =>
    rw [pickNext] at h
    cases hq : pickNext ts with
    | none => rw [hq] at h; simp at h
    | some q =>
      rw [hq] at h
      simp only at h
      split at h <;> simp at h

theorem pendingFor_append (id : Nat) (l1 l2 : List Timer) :
    pendingFor id (l1 ++ l2) = pendingFor id l1 ++ pendingFor id l2 := by
  simp [pendingFor]

theorem pendingFor_remove_other (id : Nat) (l1 l2 : List Timer) (tm : Timer)
    (h : tm.action.target ≠ id) :
    pendingFor id (l1 ++ l2) = pendingFor id (l1 ++ tm :: l2) := by
  simp [pendingFor, List.filter_cons, h]

theorem pendingFor_remove_same (id : Nat) (l1 l2 : List Timer) (tm : Timer)
    (h : tm.action.target = id) :
    (pendingFor id (l1 ++ l2)).Perm ((pendingFor id (l1 ++ tm :: l2)).erase tm) := by
  have e : pendingFor id (l1 ++ tm :: l2) = pendingFor id l1 ++ tm :: pendingFor id l2 := by
    simp [pendingFor, List.filter_cons, h]
  rw [e, pendingFor_append]
  have p : (pendingFor id l1 ++ tm :: pendingFor id l2).Perm
      (tm :: (pendingFor id l1 ++ pendingFor id l2)) := List.perm_middle
  exact ((p.erase tm).trans (by simp)).symm

theorem runCallback_elems_other (a : TimerAction) (feed : Feed) (id : Nat)
    (h : a.target ≠ id) : (runCallback a feed).elems[id]? = feed.elems[id]? := by
  cases a <;> simp [runCallback, setTimeout, TimerAction.target] at h ⊢ <;>
    exact getElem?_updateAt_ne _ _ _ _ h

theorem runCallback_pending_other (a : TimerAction) (feed : Feed) (id : Nat)
    (h : a.target ≠ id) :
    pendingFor id (runCallback a feed).timers = pendingFor id feed.timers := by
  cases a <;> simp [runCallback, setTimeout, TimerAction.target, pendingFor] at h ⊢
  exact h

theorem runCallback_now (a : TimerAction) (feed : Feed) :
    (runCallback a feed).now = feed.now := by
  cases a <;> rfl

theorem runCallback_timers_mem (a : TimerAction) (feed : Feed) (u : Timer)
    (h : u ∈ (runCallback a feed).timers) : u ∈ feed.timers ∨ feed.now ≤ u.due := by
  cases a <;> simp [runCallback, setTimeout] at h ⊢
  · exact Or.inl h
  · rcases h with h | h
    · exact Or.inl h
    · right; rw [h]; simp
  · exact Or.inl h

theorem fire_timely (feed : Feed) (tm : Timer) (rest : List Timer) (hT : Timely feed)
    (hp : pickNext feed.timers = some (tm, rest)) : Timely (fire tm rest feed) := by
  obtain ⟨l1, l2, e1, e2, hmin⟩ := pickNext_spec _ _ _ hp
  intro u hu
  rw [fire, runCallback_now]
  rcases runCallback_timers_mem _ _ _ hu with h | h
  · simp only at h ⊢
    have hu' : u ∈ feed.timers := by
      rw [e1]; rw [e2] at h
      rcases List.mem_append.mp h with h | h
      · exact List.mem_append.mpr (Or.inl h)
      · exact List.mem_append.mpr (Or.inr (List.mem_cons_of_mem _ h))
    exact max_le (hT u hu') (hmin u hu')
  · exact h

theorem fire_phase (feed : Feed) (tm : Timer) (rest : List Timer) (id t0 : Nat)
    (hT : Timely feed) (hP : Phase id t0 feed)
    (hp : pickNext feed.timers = some (tm, rest)) :
    Phase id t0 (fire tm rest feed) := by
  obtain ⟨l1, l2, e1, e2, hmin⟩ := pickNext_spec _ _ _ hp
  obtain ⟨el, hel, hph⟩ := hP
  have hclock : (fire tm rest feed).now = max feed.now tm.due := by
    rw [fire, runCallback_now]
  by_cases htgt : tm.action.target = id
  · have hperm := pendingFor_remove_same id l1 l2 tm htgt
    rw [← e1, ← e2] at hperm
    have hmem : tm ∈ pendingFor id feed.timers := by
      rw [pendingFor, List.mem_filter]
      exact ⟨by rw [e1]; simp, by simp [htgt]⟩
    have hnow : feed.now ≤ tm.due := hT tm (by rw [e1]; simp)
    rcases hph with ⟨hpd, hs, ha⟩ | ⟨hpd, hs, ha, hb⟩ | ⟨hpd, hs, ha, hb⟩ | ⟨hpd, hs, ha, hb⟩
    · rw [hpd] at hmem hperm
      have hA : (⟨t0 + 100, .addShow id⟩ : Timer) ∈ feed.timers := by
        have : (⟨t0 + 100, .addShow id⟩ : Timer) ∈ pendingFor id feed.timers := by
          rw [hpd]; simp
        exact (List.mem_filter.mp this).1
      have hle := hmin _ hA
      have htm : tm = ⟨t0 + 100, .addShow id⟩ := by
        simp only [List.mem_cons, List.mem_singleton, List.not_mem_nil, or_false] at hmem
        rcases hmem with h | h
        · exact h
        · rw [h] at hle; simp at hle
      subst htm
      simp only [List.erase_cons_head] at hperm
      have hrest := List.perm_singleton.mp hperm
      refine ⟨{ el with shown := true }, ?_, Or.inr (Or.inl ⟨?_, rfl, ha, by rw [hclock]; simp⟩)⟩
      · simp only [fire, runCallback]
        exact getElem?_updateAt_same _ _ _ _ hel
      · simp only [fire, runCallback]
        exact hrest
    · rw [hpd] at hmem hperm
      have htm : tm = ⟨t0 + 5000, .hide id⟩ := by simpa using hmem
      subst htm
      simp only [List.erase_cons_head] at hperm
      have hrest := List.perm_nil.mp hperm
      refine ⟨{ el with shown := false }, ?_, Or.inr (Or.inr (Or.inl ⟨?_, rfl, ha, by rw [hclock]; simp⟩))⟩
      · simp only [fire, runCallback, setTimeout]
        exact getElem?_updateAt_same _ _ _ _ hel
      · simp only [fire, runCallback, setTimeout]
        rw [pendingFor_append, hrest]
        simp only at hnow
        simp [pendingFor, TimerAction.target, max_eq_right hnow]
    · rw [hpd] at hmem hperm
      have htm : tm = ⟨t0 + 5300, .detach id⟩ := by simpa using hmem
      subst htm
      simp only [List.erase_cons_head] at hperm
      have hrest := List.perm_nil.mp hperm
      refine ⟨{ el with attached := false }, ?_, Or.inr (Or.inr (Or.inr ⟨?_, hs, rfl, by rw [hclock]; simp⟩))⟩
      · simp only [fire, runCallback]
        rw [getElem?_updateAt_same _ _ _ _ hel]
        simp [ha]
      · simp only [fire, runCallback]
        exact hrest
    · rw [hpd] at hmem
      simp at hmem
  · have h1 : (fire tm rest feed).elems[id]? = feed.elems[id]? := by
      rw [fire, runCallback_elems_other _ _ _ htgt]
    have h2 : pendingFor id (fire tm rest feed).timers = pendingFor id feed.timers := by
      rw [fire, runCallback_pending_other _ _ _ htgt]
      simp only
      rw [e2, e1]
      exact pendingFor_remove_other id l1 l2 tm htgt
    have hmono : feed.now ≤ (fire tm rest feed).now := by rw [hclock]; exact le_max_left _ _
    refine ⟨el, by rw [h1]; exact hel, ?_⟩
    rw [h2]
    rcases hph with ⟨hpd, hs, ha⟩ | ⟨hpd, hs, ha, hb⟩ | ⟨hpd, hs, ha, hb⟩ | ⟨hpd, hs, ha, hb⟩
    · exact Or.inl ⟨hpd, hs, ha⟩
    · exact Or.inr (Or.inl ⟨hpd, hs, ha, le_trans hb hmono⟩)
    · exact Or.inr (Or.inr (Or.inl ⟨hpd, hs, ha, le_trans hb hmono⟩))
    · exact Or.inr (Or.inr (Or.inr ⟨hpd, hs, ha, le_trans hb hmono⟩))

theorem weight_append (l1 l2 : List Timer) : weight (l1 ++ l2) = weight l1 + weight l2 := by
  simp [weight]

theorem weight_cons (tm : Timer) (l : List Timer) : weight (tm :: l) = tm.weight + weight l := by
  simp [weight]

theorem fire_weight (feed : Feed) (tm : Timer) (rest : List Timer)
    (hp : pickNext feed.timers = some (tm, rest)) :
    weight (fire tm rest feed).timers < weight feed.timers := by
  obtain ⟨l1, l2, e1, e2, _⟩ := pickNext_spec _ _ _ hp
  rw [e1, weight_append, weight_cons]
  obtain ⟨due, a⟩ := tm
  cases a <;>
    simp [fire, runCallback, setTimeout, e2, weight_append, weight_cons, Timer.weight, weight]
  omega

theorem length_updateAt {α : Type} (f : α → α) (i : Nat) (l : List α) :
    (updateAt f i l).length = l.length := by
  induction l generalizing i with
  | nil => simp [updateAt]
  | cons y ys ih =>
    cases i with
    | zero => simp [updateAt]
    | succ n => simp [updateAt, ih n]

theorem fire_targeted (feed : Feed) (tm : Timer) (rest : List Timer) (hW : Targeted feed)
    (hp : pickNext feed.timers = some (tm, rest)) : Targeted (fire tm rest feed) := by
  obtain ⟨l1, l2, e1, e2, _⟩ := pickNext_spec _ _ _ hp
  have htm : tm.action.target < feed.elems.length := hW tm (by rw [e1]; simp)
  have hrest : ∀ u ∈ rest, u.action.target < feed.elems.length := by
    intro u hu
    apply hW u
    rw [e1]; rw [e2] at hu
    rcases List.mem_append.mp hu with h | h
    · exact List.mem_append.mpr (Or.inl h)
    · exact List.mem_append.mpr (Or.inr (List.mem_cons_of_mem _ h))
  obtain ⟨due, a⟩ := tm
  intro u hu
  cases a <;>
    simp only [fire, runCallback, setTimeout, length_updateAt, List.mem_append,
      List.mem_singleton] at hu ⊢
  · exact hrest u hu
  · rcases hu with h | h
    · exact hrest u h
    · rw [h]; exact htm
  · exact hrest u hu

theorem timers_nil_of_weight (timers : List Timer) (h : weight timers ≤ 0) : timers = [] := by
  cases timers with
  | nil => rfl
  | cons a as =>
    rw [weight_cons] at h
    have : 0 < a.weight := by
      unfold Timer.weight
      split <;> omega
    omega

theorem phase_clock (id t0 c : Nat) (feed : Feed) (hP : Phase id t0 feed)
    (hc : feed.now ≤ c) : Phase id t0 { feed with now := c } := by
  obtain ⟨el, hel, hph⟩ := hP
  refine ⟨el, hel, ?_⟩
  rcases hph with ⟨hpd, hs, ha⟩ | ⟨hpd, hs, ha, hb⟩ | ⟨hpd, hs, ha, hb⟩ | ⟨hpd, hs, ha, hb⟩
  · exact Or.inl ⟨hpd, hs, ha⟩
  · exact Or.inr (Or.inl ⟨hpd, hs, ha, le_trans hb hc⟩)
  · exact Or.inr (Or.inr (Or.inl ⟨hpd, hs, ha, le_trans hb hc⟩))
  · exact Or.inr (Or.inr (Or.inr ⟨hpd, hs, ha, le_trans hb hc⟩))

theorem fire_clock_le (feed : Feed) (tm : Timer) (rest : List Timer) (t : Nat)
    (hS : feed.now ≤ t ∨ StrictTimely feed)
    (hp : pickNext feed.timers = some (tm, rest)) (hdue : tm.due ≤ t) :
    (fire tm rest feed).now ≤ t := by
  obtain ⟨l1, l2, e1, _, _⟩ := pickNext_spec _ _ _ hp
  rw [fire, runCallback_now]
  simp only
  rcases hS with h | h
  · exact max_le h hdue
  · have := h tm (by rw [e1]; simp)
    exact max_le (by omega) hdue

theorem advanceFuel_spec (t : Nat) (fuel : Nat) (feed : Feed)
    (hT : Timely feed) (hS : feed.now ≤ t ∨ StrictTimely feed) (hW : Targeted feed)
    (hF : weight feed.timers ≤ fuel) :
    StrictTimely (advanceFuel fuel t feed) ∧ Targeted (advanceFuel fuel t feed) ∧
      ∀ id t0, Phase id t0 feed → Phase id t0 (advanceFuel fuel t feed) := by
  induction fuel generalizing feed with
  | zero =>
    have hnil := timers_nil_of_weight _ hF
    simp only [advanceFuel]
    refine ⟨by simp [StrictTimely, hnil], by simp [Targeted, hnil], ?_⟩
    intro id t0 hP
    exact phase_clock id t0 _ feed hP (le_max_left _ _)
  | succ n ih =>
    rw [advanceFuel]
    cases hp : pickNext feed.timers with
    | none =>
      have hnil := pickNext_eq_none _ hp
      simp only
      refine ⟨by simp [StrictTimely, hnil], by simp [Targeted, hnil], ?_⟩
      intro id t0 hP
      exact phase_clock id t0 _ feed hP (le_max_left _ _)
    | some q =>
      obtain ⟨tm, rest⟩ := q
      simp only
      by_cases hdue : tm.due ≤ t
      · rw [if_pos hdue]
        have hw := fire_weight feed tm rest hp
        obtain ⟨h1, h2, h3⟩ := ih (fire tm rest feed) (fire_timely feed tm rest hT hp)
          (Or.inl (fire_clock_le feed tm rest t hS hp hdue))
          (fire_targeted feed tm rest hW hp) (by omega)
        exact ⟨h1, h2, fun id t0 hP => h3 id t0 (fire_phase feed tm rest id t0 hT hP hp)⟩
      · rw [if_neg hdue]
        obtain ⟨_, _, _, _, hmin⟩ := pickNext_spec _ _ _ hp
        refine ⟨?_, hW, ?_⟩
        · intro u hu
          have h1 := hmin u hu
          simp only at hu h1 ⊢
          rcases hS with h | h
          · rw [max_eq_right h]; omega
          · have h2 := h u hu
            exact max_lt h2 (by omega)
        · intro id t0 hP
          exact phase_clock id t0 _ feed hP (le_max_left _ _)

theorem strictTimely_timely (feed : Feed) (h : StrictTimely feed) : Timely feed :=
  fun tm htm => Nat.le_of_lt (h tm htm)

theorem advance_spec (t : Nat) (feed : Feed) (hS : StrictTimely feed) (hW : Targeted feed) :
    StrictTimely (advance t feed) ∧ Targeted (advance t feed) ∧
      ∀ id t0, Phase id t0 feed → Phase id t0 (advance t feed) :=
  advanceFuel_spec t _ feed (strictTimely_timely feed hS) (Or.inr hS) hW (le_refl _)

theorem showNotification_phase (message type : String) (feed : Feed) (hW : Targeted feed) :
    Phase feed.elems.length feed.now (showNotification message type feed) := by
  refine ⟨⟨message, type, false, true⟩, by simp [showNotification, setTimeout],
    Or.inl ⟨?_, rfl, rfl⟩⟩
  have h0 : pendingFor feed.elems.length feed.timers = [] := by
    rw [pendingFor, List.filter_eq_nil_iff]
    intro tm htm
    have := hW tm htm
    simp
    omega
  simp only [showNotification, setTimeout, pendingFor_append, h0]
  simp [pendingFor, TimerAction.target]

theorem showNotification_keeps_phase (message type : String) (feed : Feed) (id t0 : Nat)
    (hP : Phase id t0 feed) : Phase id t0 (showNotification message type feed) := by
  obtain ⟨el, hel, hph⟩ := hP
  have hlt : id < feed.elems.length := by
    by_contra hge
    rw [List.getElem?_eq_none (by omega)] at hel
    exact absurd hel (by simp)
  have hne : feed.elems.length ≠ id := by omega
  have hpend : pendingFor id (showNotification message type feed).timers
      = pendingFor id feed.timers := by
    simp [showNotification, setTimeout, pendingFor, TimerAction.target, hne]
  refine ⟨el, ?_, ?_⟩
  · simp only [showNotification, setTimeout]
    rw [List.getElem?_append_left hlt]
    exact hel
  · rw [hpend]
    exact hph

theorem showNotification_strictTimely (message type : String) (feed : Feed)
    (hT : StrictTimely feed) : StrictTimely (showNotification message type feed) := by
  intro u hu
  simp only [showNotification, setTimeout, List.append_assoc, List.mem_append,
    List.mem_singleton] at hu ⊢
  rcases hu with h | h | h
  · exact hT u h
  · rw [h]; simp
  · rw [h]; simp

theorem showNotification_targeted (message type : String) (feed : Feed) (hW : Targeted feed) :
    Targeted (showNotification message type feed) := by
  intro u hu
  simp only [showNotification, setTimeout, List.append_assoc, List.mem_append,
    List.mem_singleton, List.length_append, List.length_singleton] at hu ⊢
  rcases hu with h | h | h
  · have := hW u h
    omega
  · rw [h]; simp [TimerAction.target]
  · rw [h]; simp [TimerAction.target]

theorem reachable_invariants (feed : Feed) (h : Reachable feed) :
    StrictTimely feed ∧ Targeted feed := by
  induction h with
  | empty => simp [StrictTimely, Targeted, Feed.empty]
  | shown message type feed _ ih =>
    exact ⟨showNotification_strictTimely message type feed ih.1,
      showNotification_targeted message type feed ih.2⟩
  | advanced t feed _ ih =>
    exact ⟨(advance_spec t feed ih.1 ih.2).1, (advance_spec t feed ih.1 ih.2).2.1⟩

theorem later_invariants (start later : Feed) (id t0 : Nat) (hl : Later start later)
    (hS : StrictTimely start) (hW : Targeted start) (hP : Phase id t0 start) :
    StrictTimely later ∧ Targeted later ∧ Phase id t0 later := by
  induction hl with
  | refl => exact ⟨hS, hW, hP⟩
  | shown message type later _ ih =>
    exact ⟨showNotification_strictTimely message type later ih.1,
      showNotification_targeted message type later ih.2.1,
      showNotification_keeps_phase message type later id t0 ih.2.2⟩
  | advanced t later _ ih =>
    obtain ⟨h1, h2, h3⟩ := advance_spec t later ih.1 ih.2.1
    exact ⟨h1, h2, h3 id t0 ih.2.2⟩

theorem phase_reading (id t0 : Nat) (feed : Feed) (hS : StrictTimely feed)
    (hP : Phase id t0 feed) :
    (visible feed id = true ↔ t0 + 100 ≤ feed.now ∧ feed.now < t0 + 5000) ∧
    (attached feed id = true ↔ feed.now < t0 + 5300) := by
  obtain ⟨el, hel, hph⟩ := hP
  have hmem : ∀ tm, tm ∈ pendingFor id feed.timers → feed.now < tm.due := by
    intro tm h
    exact hS tm (List.mem_filter.mp h).1
  simp only [visible, attached, hel]
  rcases hph with ⟨hpd, hs, ha⟩ | ⟨hpd, hs, ha, hb⟩ | ⟨hpd, hs, ha, hb⟩ | ⟨hpd, hs, ha, hb⟩
  · have h1 := hmem ⟨t0 + 100, .addShow id⟩ (by rw [hpd]; simp)
    simp only at h1
    simp [hs, ha]
    omega
  · have h1 := hmem ⟨t0 + 5000, .hide id⟩ (by rw [hpd]; simp)
    simp only at h1
    simp [hs, ha]
    omega
  · have h1 := hmem ⟨t0 + 5300, .detach id⟩ (by rw [hpd]; simp)
    simp only at h1
    simp [hs, ha]
    omega
  · simp [hs, ha]
    omega

theorem lifecycle (message type : String) (feed later : Feed)
    (hS : StrictTimely feed) (hW : Targeted feed)
    (hl : Later (showNotification message type feed) later) :
    (visible later feed.elems.length = true
        ↔ feed.now + 100 ≤ later.now ∧ later.now < feed.now + 5000) ∧
    (attached later feed.elems.length = true ↔ later.now < feed.now + 5300) := by
  obtain ⟨h1, _, h3⟩ := later_invariants _ later feed.elems.length feed.now hl
    (showNotification_strictTimely message type feed hS)
    (showNotification_targeted message type feed hW)
    (showNotification_phase message type feed hW)
  exact phase_reading _ _ later h1 h3

/-! ## Lemmas on the dispatcher -/

theorem lookup_setButton (tool : String) (b old : Button) (l : List (String × Button))
    (h : l.lookup tool = some old) : (setButton tool b l).lookup tool = some b := by
  induction l with
  | nil => simp at h
  | cons kb rest ih =>
    obtain ⟨k, o⟩ := kb
    by_cases hk : tool = k
    · subst hk
      simp [setButton, List.lookup]
    · have hk2 : (tool == k) = false := by simpa using hk
      rw [List.lookup, hk2] at h
      simp only [setButton, hk2, List.lookup]
      simpa using ih h

theorem requestFor_some_known (tool : String) (file : File) (req : Request)
    (h : requestFor tool file = some req) : tool ∈ knownTools := by
  unfold requestFor at h
  split at h <;> simp [knownTools] at h ⊢

theorem truthy_str (m : String) (hm : m ≠ "") : (JSVal.str m).truthy = true := by
  simp [JSVal.truthy, hm]

theorem handleFileDownload_failed (host : Host) (response : Response) (filename : String)
    (st : State) (fields : List (String × JSVal)) (m : String) (hm : m ≠ "")
    (hok : response.ok = false) (hj : response.json = .ok (.obj fields))
    (he : (JSVal.obj fields).prop "error" = .str m) :
    handleFileDownload host response filename st = (some m, st) := by
  simp [handleFileDownload, hok, hj, JSVal.isNullish, he, truthy_str m hm, Host.toStr]

theorem handleJsonResponse_failed (host : Host) (response : Response)
    (st : State) (fields : List (String × JSVal)) (m : String) (hm : m ≠ "")
    (hj : response.json = .ok (.obj fields))
    (hs : ((JSVal.obj fields).prop "success").truthy = false)
    (he : (JSVal.obj fields).prop "error" = .str m) :
    handleJsonResponse host response st = (some m, st) := by
  simp [handleJsonResponse, hj, JSVal.isNullish, hs, he, truthy_str m hm, Host.toStr]

theorem afterFetch_failed (host : Host) (tool : String) (response : Response) (st : State)
    (file : File) (fields : List (String × JSVal)) (m : String) (hm : m ≠ "")
    (hk : tool ∈ knownTools) (hf : st.currentFile = some file)
    (hj : response.json = .ok (.obj fields))
    (he : (JSVal.obj fields).prop "error" = .str m)
    (hc : (tool ∈ downloadTools ∧ response.ok = false) ∨
      (tool ∉ downloadTools ∧ ((JSVal.obj fields).prop "success").truthy = false)) :
    afterFetch host tool response st = (some m, st) := by
  simp only [knownTools, List.mem_cons, List.mem_singleton, List.not_mem_nil, or_false] at hk
  rcases hk with h | h | h | h | h | h | h <;> subst h <;>
    simp [downloadTools] at hc <;>
    simp only [afterFetch, hf]
  · exact handleFileDownload_failed host response _ st fields m hm hc hj he
  · exact handleFileDownload_failed host response _ st fields m hm hc hj he
  all_goals exact handleJsonResponse_failed host response st fields m hm hj hc he

theorem handleToolBegin_awaiting (host : Host) (tool : String) (st : State) (file : File)
    (b : Button) (req : Request) (hf : st.currentFile = some file)
    (hb : st.buttons.lookup tool = some b) (hr : requestFor tool file = some req) :
    handleToolBegin host tool st = .awaiting req
      { st with buttons := setButton tool ⟨true, true⟩ st.buttons,
                requests := st.requests ++ [req] } := by
  simp [handleToolBegin, hf, hb, hr]

theorem handleToolResume_failed (host : Host) (tool : String) (outcome : Except String Response)
    (st : State) (file : File) (m : String)
    (hk : tool ∈ knownTools) (hf : st.currentFile = some file)
    (hfail : FailsWith tool outcome m) :
    handleToolResume host tool outcome st =
      { addLogEntry "error" (jsReplace tool "_" " " ++ " failed: " ++ m)
          (notify ("Operation failed: " ++ m) "error" st) with
        buttons := setButton tool ⟨false, false⟩ st.buttons } := by
  rcases hfail with h | ⟨hm, response, fields, h, hj, he, hc⟩
  · subst h
    simp [handleToolResume, settle, addLogEntry, notify]
  · subst h
    simp [handleToolResume, settle,
      afterFetch_failed host tool response st file fields m hm hk hf hj he hc, addLogEntry, notify]


theorem htmlTextAux_plain (l : List Char)
    (h : l.all (fun c => !(c = '&' ∨ c = '<' ∨ c = '\r' ∨ c = Char.ofNat 0)) = true) :
    htmlTextAux none l = some l := by
  induction l with
  | nil => rfl
  | cons c rest ih =>
    simp only [List.all_cons, Bool.and_eq_true, Bool.not_eq_true', decide_eq_false_iff_not,
      not_or] at h
    obtain ⟨⟨h1, h2, h3, h4⟩, hrest⟩ := h
    simp [htmlTextAux, h1, h2, h3, h4, ih hrest]

theorem htmlText_plain (s : String) (h : isPlain s = true) : htmlText s = some s := by
  unfold htmlText
  rw [htmlTextAux_plain s.data h]
  rfl

theorem isPlain_append (a b : String) : isPlain (a ++ b) = (isPlain a && isPlain b) := by
  simp [isPlain, String.data_append, List.all_append]

theorem isPlain_operation (tool : String) (hk : tool ∈ knownTools) :
    isPlain (jsReplace tool "_" " " ++ " failed: ") = true := by
  simp only [knownTools, List.mem_cons, List.mem_singleton, List.not_mem_nil, or_false] at hk
  rcases hk with h | h | h | h | h | h | h <;> subst h <;> decide

/-! ## Claims -/

/-- C1: with no file selected, `handleTool` returns at the selection guard for every
tool, in particular for encrypt, decrypt, compute_hash, verify_integrity and backup: no
error reaches the caller, no `fetch` call is issued, and exactly one notification is
created, of type error. -/
theorem handleTool_without_file_rejects (host : Host)
    (net : Request → Except String Response) (tool : String) (st : State)
    (h : st.currentFile = none) :
    handleToolBegin host tool st = .rejected (notify "Please select a file first" "error" st) ∧
    (handleTool host net tool st).1 = none ∧
    (handleTool host net tool st).2.requests = st.requests ∧
    (handleTool host net tool st).2.feed.elems =
      st.feed.elems ++ [⟨"Please select a file first", "error", false, true⟩] := by
  have hb : handleToolBegin host tool st
      = .rejected (notify "Please select a file first" "error" st) := by
    simp [handleToolBegin, h]
  refine ⟨hb, ?_, ?_, ?_⟩ <;> simp [handleTool, hb, notify, showNotification, setTimeout]

/-- C1 at the freshly loaded page, for the backup tool. -/
theorem handleTool_without_file_rejects_witness :
    handleToolBegin sampleHost "backup" noFile
      = .rejected (notify "Please select a file first" "error" noFile) ∧
    (handleTool sampleHost netDown "backup" noFile).1 = none ∧
    (handleTool sampleHost netDown "backup" noFile).2.requests = noFile.requests ∧
    (handleTool sampleHost netDown "backup" noFile).2.feed.elems =
      noFile.feed.elems ++ [⟨"Please select a file first", "error", false, true⟩] :=
  handleTool_without_file_rejects sampleHost netDown "backup" noFile rfl

/-- C2 fails as stated: with no file selected, `handleTool('view_hashes')` is rejected
at the selection guard like every other tool, and no request is issued. -/
theorem view_hashes_without_file_rejected :
    handleToolBegin sampleHost "view_hashes" noFile
      = .rejected (notify "Please select a file first" "error" noFile) ∧
    (handleTool sampleHost (netReply true (.obj [("success", .bool true)])) "view_hashes"
      noFile).2.requests = [] := by
  decide

/-- C2 as amended: for view_hashes and system_info, `handleTool` with no file selected
only raises the selection error; with a file selected (and the button on the page) it
issues the GET request without a body for that tool, and when the request is answered
the whole run is `handleJsonResponse` on that response followed by the `catch` and
`finally` blocks: what the handler logs and notifies is what `handleTool` leaves. -/
theorem view_tools_dispatch (host : Host) (net : Request → Except String Response)
    (tool : String) (st : State) (ht : tool ∈ ["view_hashes", "system_info"]) :
    (st.currentFile = none →
      handleTool host net tool st = (none, notify "Please select a file first" "error" st)) ∧
    (∀ file b response, st.currentFile = some file → st.buttons.lookup tool = some b →
      net ⟨"/" ++ tool, "GET", none⟩ = .ok response →
      handleToolBegin host tool st = .awaiting ⟨"/" ++ tool, "GET", none⟩
        { st with buttons := setButton tool ⟨true, true⟩ st.buttons,
                  requests := st.requests ++ [⟨"/" ++ tool, "GET", none⟩] } ∧
      handleTool host net tool st =
        (none, settle tool (handleJsonResponse host response
          { st with buttons := setButton tool ⟨true, true⟩ st.buttons,
                    requests := st.requests ++ [⟨"/" ++ tool, "GET", none⟩] })) ∧
      ∀ st2, handleJsonResponse host response
          { st with buttons := setButton tool ⟨true, true⟩ st.buttons,
                    requests := st.requests ++ [⟨"/" ++ tool, "GET", none⟩] } = (none, st2) →
        (handleTool host net tool st).2.log = st2.log ∧
        (handleTool host net tool st).2.feed = st2.feed ∧
        (handleTool host net tool st).2.requests = st2.requests) := by
  simp only [List.mem_cons, List.mem_singleton, List.not_mem_nil, or_false] at ht
  constructor
  · intro h
    simp [handleTool, handleToolBegin, h]
  · intro file b response hf hb hnet
    have key : ∀ req : Request, requestFor tool file = some req →
        req = ⟨"/" ++ tool, "GET", none⟩ →
        afterFetch host tool response
          { st with buttons := setButton tool ⟨true, true⟩ st.buttons,
                    requests := st.requests ++ [req] }
          = handleJsonResponse host response
              { st with buttons := setButton tool ⟨true, true⟩ st.buttons,
                        requests := st.requests ++ [req] } →
        handleToolBegin host tool st = .awaiting req
          { st with buttons := setButton tool ⟨true, true⟩ st.buttons,
                    requests := st.requests ++ [req] } ∧
        handleTool host net tool st =
          (none, settle tool (handleJsonResponse host response
            { st with buttons := setButton tool ⟨true, true⟩ st.buttons,
                      requests := st.requests ++ [req] })) := by
      intro req hr hreq hafter
      have hbegin := handleToolBegin_awaiting host tool st file b req hf hb hr
      refine ⟨hbegin, ?_⟩
      rw [handleTool, hbegin]
      simp only
      rw [hreq, hnet, handleToolResume]
      rw [← hreq, hafter]
    have hboth : handleToolBegin host tool st = .awaiting ⟨"/" ++ tool, "GET", none⟩
          { st with buttons := setButton tool ⟨true, true⟩ st.buttons,
                    requests := st.requests ++ [⟨"/" ++ tool, "GET", none⟩] } ∧
        handleTool host net tool st =
          (none, settle tool (handleJsonResponse host response
            { st with buttons := setButton tool ⟨true, true⟩ st.buttons,
                      requests := st.requests ++ [⟨"/" ++ tool, "GET", none⟩] })) := by
      rcases ht with h | h <;> subst h
      · exact key _ rfl rfl rfl
      · exact key _ rfl rfl rfl
    refine ⟨hboth.1, hboth.2, ?_⟩
    intro st2 h2
    rw [hboth.2, h2]
    simp [settle]

/-- C2 as amended, at the sample page: view_hashes without a file, and system_info with
a file on a network that answers with a system report, whose five lines reach the log. -/
theorem view_tools_dispatch_witness :
    handleTool sampleHost netDown "view_hashes" noFile
      = (none, notify "Please select a file first" "error" noFile) ∧
    handleTool sampleHost (netReply true systemReport) "system_info" withFile =
      (none, settle "system_info" (handleJsonResponse sampleHost ⟨true, .ok systemReport, .ok ()⟩
        { withFile with
          buttons := setButton "system_info" ⟨true, true⟩ withFile.buttons,
          requests := withFile.requests ++ [⟨"/" ++ "system_info", "GET", none⟩] })) ∧
    (handleTool sampleHost (netReply true systemReport) "system_info" withFile).2.log
      = reportedState.log :=
  ⟨(view_tools_dispatch sampleHost netDown "view_hashes" noFile (by decide)).1 rfl,
   ((view_tools_dispatch sampleHost (netReply true systemReport) "system_info" withFile
      (by decide)).2 ⟨"notes.txt", 10, "text/plain"⟩ ⟨false, false⟩
      ⟨true, .ok systemReport, .ok ()⟩ rfl (by decide) rfl).2.1,
   (((view_tools_dispatch sampleHost (netReply true systemReport) "system_info" withFile
      (by decide)).2 ⟨"notes.txt", 10, "text/plain"⟩ ⟨false, false⟩
      ⟨true, .ok systemReport, .ok ()⟩ rfl (by decide) rfl).2.2 reportedState (by decide)).1⟩

/-- C3 fails as stated: a second `handleTool('encrypt')` entered while the first is
suspended at its `fetch` issues a second request. -/
theorem second_invocation_issues_second_call :
    handleToolBegin sampleHost "encrypt" withFile = .awaiting encryptRequest pendingEncrypt ∧
    handleToolBegin sampleHost "encrypt" pendingEncrypt
      = .awaiting encryptRequest
          { pendingEncrypt with requests := [encryptRequest, encryptRequest] } := by
  decide

/-- C3 as amended: for every tool with a case in the switch, a file selected and the
button on the page, the first invocation leaves the button of that tool loading and
disabled while its request is pending; `handleTool` does not test that mark, so a second
invocation made meanwhile creates no notification and no log entry and issues the same
request again. -/
theorem handleTool_reentry (host : Host) (tool : String) (st : State) (file : File)
    (b : Button) (req : Request) (hf : st.currentFile = some file)
    (hb : st.buttons.lookup tool = some b) (hr : requestFor tool file = some req) :
    ∃ st1 st2, handleToolBegin host tool st = .awaiting req st1 ∧
      st1.buttons.lookup tool = some ⟨true, true⟩ ∧
      handleToolBegin host tool st1 = .awaiting req st2 ∧
      st2.requests = st.requests ++ [req, req] ∧
      st2.feed = st.feed ∧ st2.log = st.log := by
  have h1 := handleToolBegin_awaiting host tool st file b req hf hb hr
  have hb1 := lookup_setButton tool ⟨true, true⟩ b st.buttons hb
  refine ⟨_, _, h1, hb1, handleToolBegin_awaiting host tool _ file ⟨true, true⟩ req hf hb1 hr,
    by simp, rfl, rfl⟩

/-- C3 as amended, at the sample page for the backup tool. -/
theorem handleTool_reentry_witness :
    ∃ st1 st2,
      handleToolBegin sampleHost "backup" withFile
        = .awaiting ⟨"/backup", "POST", some ⟨"notes.txt", 10, "text/plain"⟩⟩ st1 ∧
      st1.buttons.lookup "backup" = some ⟨true, true⟩ ∧
      handleToolBegin sampleHost "backup" st1
        = .awaiting ⟨"/backup", "POST", some ⟨"notes.txt", 10, "text/plain"⟩⟩ st2 ∧
      st2.requests = withFile.requests ++
        [⟨"/backup", "POST", some ⟨"notes.txt", 10, "text/plain"⟩⟩,
         ⟨"/backup", "POST", some ⟨"notes.txt", 10, "text/plain"⟩⟩] ∧
      st2.feed = withFile.feed ∧ st2.log = withFile.log :=
  handleTool_reentry sampleHost "backup" withFile ⟨"notes.txt", 10, "text/plain"⟩
    ⟨false, false⟩ ⟨"/backup", "POST", some ⟨"notes.txt", 10, "text/plain"⟩⟩
    rfl (by decide) rfl

/-- C4 fails as stated, in four ways: the log text carries the tool name with its
first underscore turned into a space; an empty error text is replaced by the default
`Operation failed`; for encrypt a body with `success: false` under an ok status is saved
as a download, with a success notification and a success log entry; and the message is
assigned to the entry as markup, so an error text `disk full &amp; locked` is shown as
`disk full & locked`. -/
theorem failure_text_counterexamples :
    (handleTool sampleHost netDown "compute_hash" withFile).2.log
      = [⟨"error", "compute hash failed: timeout"⟩] ∧
    (handleTool sampleHost
        (netReply false (.obj [("success", .bool false), ("error", .str "")]))
        "backup" withFile).2.log
      = [⟨"error", "backup failed: Operation failed"⟩] ∧
    (handleTool sampleHost (netReply true badKey) "encrypt" withFile).2.log
      = [⟨"success", "File processed and downloaded: notes.txt.encrypted"⟩] ∧
    ((handleTool sampleHost (netReply true badKey) "encrypt"
        withFile).2.feed.elems.map (fun el => (el.message, el.type)))
      = [("File downloaded successfully", "success")] ∧
    ((handleTool sampleHost (netReply true diskFull) "backup" withFile).2.log.map
        LogEntry.text)
      = [some "backup failed: disk full & locked"] := by
  decide

/-- C4 as amended: for every tool with a case in the switch, a file selected, and every
message `m`: when the `fetch` is rejected with `m`, or the body is an object with the
non-empty error text `m` and the response counts as failed for the handler of the tool
(status not ok for encrypt and decrypt, `success` falsy for the others), `handleTool`
lets no error reach its caller, creates exactly one notification, `Operation failed: m`
of type error, and appends exactly one log entry, of type error, built from the markup
`<operation> failed: m`, where the operation is the tool name with its first underscore
replaced by a space; when `m` holds no markup, that entry shows exactly this text. -/
theorem handleTool_failure (host : Host) (net : Request → Except String Response)
    (tool : String) (st : State) (file : File) (b : Button) (req : Request) (m : String)
    (hf : st.currentFile = some file) (hb : st.buttons.lookup tool = some b)
    (hr : requestFor tool file = some req) (hfail : FailsWith tool (net req) m) :
    (handleTool host net tool st).1 = none ∧
    (handleTool host net tool st).2.feed.elems =
      st.feed.elems ++ [⟨"Operation failed: " ++ m, "error", false, true⟩] ∧
    (handleTool host net tool st).2.log =
      st.log ++ [⟨"error", jsReplace tool "_" " " ++ " failed: " ++ m⟩] ∧
    (isPlain m = true →
      (handleTool host net tool st).2.log.map LogEntry.text =
        st.log.map LogEntry.text ++ [some (jsReplace tool "_" " " ++ " failed: " ++ m)]) := by
  have hk := requestFor_some_known tool file req hr
  have hlog : (handleTool host net tool st).2.log =
      st.log ++ [⟨"error", jsReplace tool "_" " " ++ " failed: " ++ m⟩] := by
    rw [handleTool, handleToolBegin_awaiting host tool st file b req hf hb hr]
    simp only
    rw [handleToolResume_failed host tool (net req) _ file m hk (by exact hf) hfail]
    simp [addLogEntry, notify]
  refine ⟨?_, ?_, hlog, ?_⟩
  · rw [handleTool, handleToolBegin_awaiting host tool st file b req hf hb hr]
  · rw [handleTool, handleToolBegin_awaiting host tool st file b req hf hb hr]
    simp only
    rw [handleToolResume_failed host tool (net req) _ file m hk (by exact hf) hfail]
    simp [addLogEntry, notify, showNotification, setTimeout]
  · intro hm
    have hp : isPlain (jsReplace tool "_" " " ++ " failed: " ++ m) = true := by
      rw [isPlain_append, isPlain_operation tool hk, hm]
      rfl
    rw [hlog]
    simp [LogEntry.text, htmlText_plain _ hp]

/-- C4 as amended, at the sample page: backup on a network that is down, encrypt
answered with a status that is not ok and the error text `bad key`, and compute_hash
answered with `success: false` and the same error text. -/
theorem handleTool_failure_witness :
    ((handleTool sampleHost netDown "backup" withFile).2.log.map LogEntry.text =
       withFile.log.map LogEntry.text ++
         [some (jsReplace "backup" "_" " " ++ " failed: " ++ "timeout")]) ∧
    ((handleTool sampleHost (netReply false badKey) "encrypt" withFile).1 = none ∧
     (handleTool sampleHost (netReply false badKey) "encrypt" withFile).2.feed.elems =
       withFile.feed.elems ++ [⟨"Operation failed: " ++ "bad key", "error", false, true⟩] ∧
     (handleTool sampleHost (netReply false badKey) "encrypt" withFile).2.log =
       withFile.log ++ [⟨"error", jsReplace "encrypt" "_" " " ++ " failed: " ++ "bad key"⟩]) ∧
    ((handleTool sampleHost (netReply true badKey) "compute_hash" withFile).2.log =
       withFile.log ++
         [⟨"error", jsReplace "compute_hash" "_" " " ++ " failed: " ++ "bad key"⟩]) :=
  ⟨(handleTool_failure sampleHost netDown "backup" withFile ⟨"notes.txt", 10, "text/plain"⟩
      ⟨false, false⟩ ⟨"/backup", "POST", some ⟨"notes.txt", 10, "text/plain"⟩⟩ "timeout"
      rfl (by decide) rfl (Or.inl rfl)).2.2.2 (by decide),
   (let h := handleTool_failure sampleHost (netReply false badKey) "encrypt" withFile
      ⟨"notes.txt", 10, "text/plain"⟩ ⟨false, false⟩ encryptRequest "bad key"
      rfl (by decide) rfl
      (Or.inr ⟨by decide, ⟨false, .ok badKey, .ok ()⟩,
        [("success", .bool false), ("error", .str "bad key")], rfl, rfl, by rfl,
        Or.inl ⟨by decide, rfl⟩⟩)
    ⟨h.1, h.2.1, h.2.2.1⟩),
   (handleTool_failure sampleHost (netReply true badKey) "compute_hash" withFile
      ⟨"notes.txt", 10, "text/plain"⟩ ⟨false, false⟩
      ⟨"/compute_hash", "POST", some ⟨"notes.txt", 10, "text/plain"⟩⟩ "bad key"
      rfl (by decide) rfl
      (Or.inr ⟨by decide, ⟨true, .ok badKey, .ok ()⟩,
        [("success", .bool false), ("error", .str "bad key")], rfl, rfl, by rfl,
        Or.inr ⟨by decide, by rfl⟩⟩)).2.2.1⟩

/-- C5 fails as stated: `handleTool('encrypt')` with no file selected appends nothing to
the log. -/
theorem selection_error_not_logged :
    (handleTool sampleHost netDown "encrypt" noFile).2.log = noFile.log ∧
    (handleTool sampleHost netDown "encrypt" noFile).2.log.length
      ≠ noFile.log.length + 1 := by
  decide

/-- C5 as amended: with no file selected, `handleTool` surfaces the selection error as
one error notification only; the log and its welcome banner are left as they were. -/
theorem handleTool_without_file_log (host : Host) (net : Request → Except String Response)
    (tool : String) (st : State) (h : st.currentFile = none) :
    (handleTool host net tool st).2.log = st.log ∧
    (handleTool host net tool st).2.welcome = st.welcome ∧
    (handleTool host net tool st).2.feed.elems =
      st.feed.elems ++ [⟨"Please select a file first", "error", false, true⟩] := by
  simp [handleTool, handleToolBegin, h, notify, showNotification, setTimeout]

/-- C5 as amended, at the freshly loaded page, for the decrypt tool. -/
theorem handleTool_without_file_log_witness :
    (handleTool sampleHost netDown "decrypt" noFile).2.log = noFile.log ∧
    (handleTool sampleHost netDown "decrypt" noFile).2.welcome = noFile.welcome ∧
    (handleTool sampleHost netDown "decrypt" noFile).2.feed.elems =
      noFile.feed.elems ++ [⟨"Please select a file first", "error", false, true⟩] :=
  handleTool_without_file_log sampleHost netDown "decrypt" noFile rfl

/-- C6 fails as stated, in two ways: a successful report whose `hash` field is present
but is the empty string, next to a `message` field, is classified by the message branch;
and the hash line is assigned to the entry as markup, so a hash `a&amp;b` is shown as
`SHA-256 Hash: a&b`. -/
theorem empty_hash_classified_by_message :
    (handleJsonResponse sampleHost
      ⟨true, .ok (.obj [("success", .bool true), ("hash", .str ""), ("message", .str "done")]),
        .ok ()⟩ noFile).2.log = [⟨"success", "done"⟩] ∧
    ((handleJsonResponse sampleHost
      ⟨true, .ok (.obj [("success", .bool true), ("hash", .str "a&amp;b"),
          ("filename", .str "notes.txt"), ("timestamp", .str "now"),
          ("message", .str "done")]),
        .ok ()⟩ noFile).2.log.map LogEntry.text)
      = [some "SHA-256 Hash: a&b", some "File: notes.txt", some "Timestamp: date"] := by
  decide

/-- C6 as amended: for every successful report whose `hash` field is truthy, whatever
its other fields, `handleJsonResponse` throws nothing, creates the one success
notification, and appends exactly three entries built from the markup of the hash line,
the file line and the timestamp line; the message field is not consulted.  When the
hash, the file name and the date text hold no markup, the entries show exactly these
three lines. -/
theorem handleJsonResponse_hash_branch (host : Host) (response : Response) (data : JSVal)
    (st : State) (hj : response.json = .ok data)
    (hs : (data.prop "success").truthy = true) (hh : (data.prop "hash").truthy = true) :
    (handleJsonResponse host response st).1 = none ∧
    (handleJsonResponse host response st).2.log = st.log ++
      [⟨"success", "SHA-256 Hash: " ++ host.toStr (data.prop "hash")⟩,
       ⟨"info", "File: " ++ host.toStr (data.prop "filename")⟩,
       ⟨"info", "Timestamp: " ++ host.dateString (data.prop "timestamp")⟩] ∧
    (handleJsonResponse host response st).2.feed.elems = st.feed.elems ++
      [⟨"Operation completed successfully", "success", false, true⟩] ∧
    (isPlain (host.toStr (data.prop "hash")) = true →
      isPlain (host.toStr (data.prop "filename")) = true →
      isPlain (host.dateString (data.prop "timestamp")) = true →
      (handleJsonResponse host response st).2.log.map LogEntry.text =
        st.log.map LogEntry.text ++
          [some ("SHA-256 Hash: " ++ host.toStr (data.prop "hash")),
           some ("File: " ++ host.toStr (data.prop "filename")),
           some ("Timestamp: " ++ host.dateString (data.prop "timestamp"))]) := by
  have hn : data.isNullish = false := by
    cases data <;> simp [JSVal.prop, JSVal.truthy, JSVal.isNullish] at hs ⊢
  have hlog : (handleJsonResponse host response st).2.log = st.log ++
      [⟨"success", "SHA-256 Hash: " ++ host.toStr (data.prop "hash")⟩,
       ⟨"info", "File: " ++ host.toStr (data.prop "filename")⟩,
       ⟨"info", "Timestamp: " ++ host.dateString (data.prop "timestamp")⟩] := by
    simp [handleJsonResponse, hj, hn, hs, hh, addLogEntry, notify]
  refine ⟨?_, hlog, ?_, ?_⟩
  · simp [handleJsonResponse, hj, hn, hs, hh]
  · simp [handleJsonResponse, hj, hn, hs, hh, addLogEntry, notify, showNotification,
      setTimeout]
  · intro h1 h2 h3
    have p1 : isPlain ("SHA-256 Hash: " ++ host.toStr (data.prop "hash")) = true := by
      rw [isPlain_append, h1]; rfl
    have p2 : isPlain ("File: " ++ host.toStr (data.prop "filename")) = true := by
      rw [isPlain_append, h2]; rfl
    have p3 : isPlain ("Timestamp: " ++ host.dateString (data.prop "timestamp")) = true := by
      rw [isPlain_append, h3]; rfl
    rw [hlog]
    simp [LogEntry.text, htmlText_plain _ p1, htmlText_plain _ p2, htmlText_plain _ p3]

/-- C6 as amended, on a report that carries both a hash and a message. -/
theorem handleJsonResponse_hash_branch_witness :
    (handleJsonResponse sampleHost (hashAndMessage.1) noFile).2.log = noFile.log ++
      [⟨"success", "SHA-256 Hash: " ++ sampleHost.toStr (hashAndMessage.2.prop "hash")⟩,
       ⟨"info", "File: " ++ sampleHost.toStr (hashAndMessage.2.prop "filename")⟩,
       ⟨"info", "Timestamp: " ++ sampleHost.dateString (hashAndMessage.2.prop "timestamp")⟩] ∧
    (handleJsonResponse sampleHost (hashAndMessage.1) noFile).2.log.map LogEntry.text =
      noFile.log.map LogEntry.text ++
        [some ("SHA-256 Hash: " ++ sampleHost.toStr (hashAndMessage.2.prop "hash")),
         some ("File: " ++ sampleHost.toStr (hashAndMessage.2.prop "filename")),
         some ("Timestamp: " ++ sampleHost.dateString (hashAndMessage.2.prop "timestamp"))] :=
  ⟨(handleJsonResponse_hash_branch sampleHost hashAndMessage.1 hashAndMessage.2 noFile
      rfl (by decide) (by decide)).2.1,
   (handleJsonResponse_hash_branch sampleHost hashAndMessage.1 hashAndMessage.2 noFile
      rfl (by decide) (by decide)).2.2.2 (by decide) (by decide) (by decide)⟩

/-- C7 fails as stated: a name that does not end with `.encrypted` is changed when the
text occurs inside it, and a name that ends with it loses an earlier occurrence instead
of the trailing one. -/
theorem decryptName_not_suffix_strip :
    decryptName "backup.encrypted.tar" = "backup.tar" ∧
    decryptName "a.encrypted.b.encrypted" = "a.b.encrypted" := by
  decide

/-- C7 as amended: the decrypt save name is the name without its first occurrence of
`.encrypted`, wherever that stands, and is the name itself when `.encrypted` does not
occur in it; `report.pdf.encrypted` gives `report.pdf` and `plain.txt` is unchanged. -/
theorem decryptName_first_occurrence (name : String) :
    (¬ ".encrypted".data <:+: name.data → decryptName name = name) ∧
    (∀ p s : String, name = p ++ ".encrypted" ++ s → ¬ ".encrypted".data <:+: p.data →
      decryptName name = p ++ s) ∧
    decryptName "report.pdf.encrypted" = "report.pdf" ∧
    decryptName "plain.txt" = "plain.txt" := by
  refine ⟨decryptName_absent name, ?_, by decide, by decide⟩
  intro p s hn hp
  rw [hn]
  exact decryptName_at p s hp

/-- C7 as amended, on a name without the text and on a name with two occurrences. -/
theorem decryptName_first_occurrence_witness :
    decryptName "plain.txt" = "plain.txt" ∧
    decryptName "a.encrypted.b.encrypted" = "a" ++ ".b.encrypted" :=
  ⟨(decryptName_first_occurrence "plain.txt").1 (by decide),
   (decryptName_first_occurrence "a.encrypted.b.encrypted").2.1 "a" ".b.encrypted"
     (by decide) (by decide)⟩

/-- C9 fails as stated: 5050 ms after its creation the notification is no longer in the
visible set, because the hide timer runs 5000 ms after creation. -/
theorem notification_hidden_at_5050 :
    visible (advance 5050 (showNotification "File selected" "success" Feed.empty)) 0
      = false := by
  decide

/-- C9 as amended: take a notification created in any reachable feed when the clock
reads `feed.now` (0 in the claim), and any further run `later` of the page after that:
more notifications created, the clock running on, timers firing exactly on schedule.
When the clock reads `later.now`, the notification is in the visible set exactly when
`feed.now + 100 ≤ later.now < feed.now + 5000`, and is a child of the container exactly
when `later.now < feed.now + 5300`; so it is not visible before 100 ms, visible from
100 ms until just before 5000 ms, and detached from 5300 ms on. -/
theorem notification_lifecycle (message type : String) (feed later : Feed)
    (h : Reachable feed) (hl : Later (showNotification message type feed) later) :
    (visible later feed.elems.length = true
        ↔ feed.now + 100 ≤ later.now ∧ later.now < feed.now + 5000) ∧
    (attached later feed.elems.length = true ↔ later.now < feed.now + 5300) :=
  lifecycle message type feed later (reachable_invariants feed h).1
    (reachable_invariants feed h).2 hl

/-- C9 as amended, for a first notification that is followed by a second one 50 ms
later, read at 4999 ms. -/
theorem notification_lifecycle_witness :
    (visible sampleRun Feed.empty.elems.length = true
      ↔ Feed.empty.now + 100 ≤ sampleRun.now ∧ sampleRun.now < Feed.empty.now + 5000) ∧
    (attached sampleRun Feed.empty.elems.length = true
      ↔ sampleRun.now < Feed.empty.now + 5300) :=
  notification_lifecycle "File selected" "success" Feed.empty sampleRun Reachable.empty
    (Later.advanced 4999 _ (Later.shown "Log saved successfully" "success" _
      (Later.advanced 50 _ Later.refl)))

/-- C10: for every file name `n` that does not contain `.encrypted`, the encrypt save
name is `n` followed by `.encrypted`, a different name, and the decrypt save name of it
is `n` again.  Through the dispatcher: encrypt on a file named `n` saves under
`n.encrypted`, and decrypt on a file of that name saves under `n`. -/
theorem decrypt_encrypt_roundtrip (n : String) (h : ¬ ".encrypted".data <:+: n.data) :
    encryptName n = n ++ ".encrypted" ∧
    encryptName n ≠ n ∧
    decryptName (encryptName n) = n ∧
    (∀ (host : Host) (response : Response) (st : State) (file : File),
      response.ok = true → response.blob = .ok () → st.currentFile = some file →
      (file.name = n →
        (afterFetch host "encrypt" response st).2.downloads
          = st.downloads ++ [n ++ ".encrypted"]) ∧
      (file.name = n ++ ".encrypted" →
        (afterFetch host "decrypt" response st).2.downloads = st.downloads ++ [n])) := by
  have h1 : decryptName (n ++ ".encrypted") = n := by
    simpa using decryptName_at n "" h
  refine ⟨rfl, ?_, h1, ?_⟩
  · intro e
    have hl := congrArg String.length e
    simp [encryptName, String.length_append] at hl
    exact absurd hl (by decide)
  · intro host response st file hok hblob hf
    constructor
    · intro hn
      simp [afterFetch, hf, handleFileDownload, hok, hblob, addLogEntry, notify, encryptName, hn]
    · intro hn
      simp [afterFetch, hf, handleFileDownload, hok, hblob, addLogEntry, notify, hn, h1]

/-- C10 on the name `report.pdf`: the names, and the two saves through the dispatcher. -/
theorem decrypt_encrypt_roundtrip_witness :
    ¬ ".encrypted".data <:+: "report.pdf".data ∧
    encryptName "report.pdf" = "report.pdf" ++ ".encrypted" ∧
    encryptName "report.pdf" ≠ "report.pdf" ∧
    decryptName (encryptName "report.pdf") = "report.pdf" ∧
    (afterFetch sampleHost "encrypt" ⟨true, .error "no body", .ok ()⟩
        { noFile with currentFile := some ⟨"report.pdf", 3, ""⟩ }).2.downloads
      = noFile.downloads ++ ["report.pdf" ++ ".encrypted"] ∧
    (afterFetch sampleHost "decrypt" ⟨true, .error "no body", .ok ()⟩
        { noFile with currentFile := some ⟨"report.pdf.encrypted", 3, ""⟩ }).2.downloads
      = noFile.downloads ++ ["report.pdf"] :=
  ⟨by decide,
   (decrypt_encrypt_roundtrip "report.pdf" (by decide)).1,
   (decrypt_encrypt_roundtrip "report.pdf" (by decide)).2.1,
   (decrypt_encrypt_roundtrip "report.pdf" (by decide)).2.2.1,
   ((decrypt_encrypt_roundtrip "report.pdf" (by decide)).2.2.2 sampleHost
      ⟨true, .error "no body", .ok ()⟩ { noFile with currentFile := some ⟨"report.pdf", 3, ""⟩ }
      ⟨"report.pdf", 3, ""⟩ rfl rfl rfl).1 rfl,
   ((decrypt_encrypt_roundtrip "report.pdf" (by decide)).2.2.2 sampleHost
      ⟨true, .error "no body", .ok ()⟩
      { noFile with currentFile := some ⟨"report.pdf.encrypted", 3, ""⟩ }
      ⟨"report.pdf.encrypted", 3, ""⟩ rfl rfl rfl).2 (by decide)⟩

end CyberShield
